import Mathlib

/-!
Verification of the adaptive-brightness engine (wlsun): a shallow embedding
of the predictor controller (`src/predictor/controller.rs`), the ALS profile
smoothing (`src/als/mod.rs`), the webcam ALS cache (`src/als/webcam.rs`) and
the IIO ALS arithmetic (`src/als/iio.rs`), together with theorems settling
the specification claims.

Modelling conventions:
  - `u64`/`u8` machine integers are `Nat`; the `u64` bound `2^64` appears as
    an explicit hypothesis where a claim needs it.
  - `f64` arithmetic is modelled exactly: over `ℝ` where the code takes
    square roots (`predict`), over `ℚ` where it does not (`iio`). Rust's
    saturating `as u64` cast on `f64` is modelled by `realToU64`/`ratToU64`
    (negative values and `NaN` saturate and collapse to `0`; in `ℝ`/`ℚ` the
    `NaN`-producing `0/0` is `0`, matching the `NaN → 0` cast).
  - channel reads are modelled as explicit inputs: the drained tail of a
    `try_iter()` is a `List Nat` or `Option Nat` argument, and a
    `recv_timeout` outcome is an `Option Nat` argument.
  - a Rust `expect` (panic) is modelled by an `Option`-valued result,
    `none` meaning the panic fired.
-/

/-- Modelled from the spec: `Entry` (spec section 3; `src/predictor/data.rs` is
not part of the provided sources). One learned datapoint: `lux : u64`,
`luma : Option u8` (perceived screen lightness, absent when not observed),
`brightness : u64`. Equality is structural on all three fields. -/
structure Entry where
  lux : Nat
  luma : Option Nat
  brightness : Nat
deriving DecidableEq, Repr

instance : Inhabited Entry := ⟨⟨0, none, 0⟩⟩

/-- Rust `Option<u8>` strict order (`<` on `Option` via the derived `Ord`):
`None` is below every `Some`, and `Some a < Some b ↔ a < b`. -/
def optLt : Option Nat → Option Nat → Bool
  | none, none => false
  | none, some _ => true
  | some _, none => false
  | some a, some b => a < b

/-- The `retain` predicate of `Controller::learn` (controller.rs lines
98-135): an old `entry` is KEPT exactly when one of the eight listed
conditions holds, each taken verbatim from the source. -/
def keepEntry (entry pending : Entry) : Bool :=
  let darker_env_darker_screen :=
    entry.lux < pending.lux && optLt entry.luma pending.luma
  let darker_env_same_screen :=
    entry.lux < pending.lux && entry.luma == pending.luma
      && entry.brightness ≤ pending.brightness
  let darker_env_brighter_screen :=
    entry.lux < pending.lux && optLt pending.luma entry.luma
      && entry.brightness ≤ pending.brightness
  let same_env_darker_screen :=
    entry.lux == pending.lux && optLt entry.luma pending.luma
      && entry.brightness ≥ pending.brightness
  let same_env_brighter_screen :=
    entry.lux == pending.lux && optLt pending.luma entry.luma
      && entry.brightness ≤ pending.brightness
  let brighter_env_darker_screen :=
    entry.lux > pending.lux && optLt entry.luma pending.luma
      && entry.brightness ≥ pending.brightness
  let brighter_env_same_screen :=
    entry.lux > pending.lux && entry.luma == pending.luma
      && entry.brightness ≥ pending.brightness
  let brighter_env_brighter_screen :=
    entry.lux > pending.lux && optLt pending.luma entry.luma
  darker_env_darker_screen
    || darker_env_same_screen
    || darker_env_brighter_screen
    || same_env_darker_screen
    || same_env_brighter_screen
    || brighter_env_darker_screen
    || brighter_env_same_screen
    || brighter_env_brighter_screen

/-- The effect of `Controller::learn` on `data.entries`: retain the kept
entries (in order) and push the pending entry at the end. -/
def learnEntries (entries : List Entry) (pending : Entry) : List Entry :=
  entries.filter (fun e => keepEntry e pending) ++ [pending]

/-- The controller state relevant to `process`/`learn` (controller.rs lines
11-21). The channels, the ALS handle, the Kalman filter and the `stateful`
flag (which only triggers a disk save) are modelled outside the state. -/
structure Controller where
  pending_cooldown : Nat
  pending : Option Entry
  entries : List Entry
  initial_brightness : Option Nat
deriving DecidableEq, Repr

/-- The constant `PENDING_COOLDOWN_RESET` (controller.rs line 9). -/
def PENDING_COOLDOWN_RESET : Nat := 15

/-- The constant `INITIAL_BRIGHTNESS_TIMEOUT_SECS` (controller.rs line 8):
the length in seconds of the initial-handshake receive window. -/
def INITIAL_BRIGHTNESS_TIMEOUT_SECS : Nat := 2

/-- The `Controller::new` construction (controller.rs lines 24-60).
`recvResult` is the outcome of `user_rx.recv_timeout(2 s)`: `none` when no
value arrived in the window (the `expect` panics, modelled as `none`),
`some b` when brightness `b` was received. `loaded` is the loaded
`data.entries`. -/
def newController (recvResult : Option Nat) (loaded : List Entry) :
    Option Controller :=
  match recvResult with
  | none => none
  | some b =>
      some { pending_cooldown := 0
             pending := none
             entries := loaded
             initial_brightness := if loaded.isEmpty then some b else none }

/-- The `Controller::learn` step (controller.rs lines 95-142):
`pending.take().expect(..)` panics (modelled as `none`) when no pending
entry exists; otherwise the entries are pruned by `retain` and the pending
entry is pushed, and the `Pending` slot is left cleared. -/
def learnFn (c : Controller) : Option Controller :=
  match c.pending with
  | none => none
  | some p =>
      some { c with pending := none, entries := learnEntries c.entries p }

/-- The `f64` Euclidean distance of `Controller::predict` (controller.rs
lines 154-156) between the query `(lux, luma)` and an entry, with absent
luma counted as `0` on both sides. -/
noncomputable def distF64 (lux : Nat) (luma : Option Nat) (e : Entry) : ℝ :=
  Real.sqrt (((lux : ℝ) - (e.lux : ℝ)) ^ 2
    + (((luma.getD 0 : Nat) : ℝ) - ((e.luma.getD 0 : Nat) : ℝ)) ^ 2)

/-- The `other_distances` product for index `i` (controller.rs lines
165-169): the product of all distances except the `i`-th, in list order. -/
noncomputable def otherProd (ds : List ℝ) (i : Nat) : ℝ :=
  (ds.take i ++ ds.drop (i + 1)).prod

/-- The `distance_denominator` (controller.rs lines 174-179): the sum of
the products of every size `n - 1` combination of the distances
(itertools `combinations`, i.e. every length `n - 1` subsequence). -/
noncomputable def denomF64 (ds : List ℝ) : ℝ :=
  ((ds.sublistsLen (ds.length - 1)).map List.prod).sum

/-- The real-valued prediction of `Controller::predict` (controller.rs lines
181-184): the sum over all entries of `brightness * other_product /
distance_denominator`. -/
noncomputable def predictReal (entries : List Entry) (lux : Nat)
    (luma : Option Nat) : ℝ :=
  ∑ i ∈ Finset.range entries.length,
    ((entries.getD i default).brightness : ℝ)
      * otherProd (entries.map (distF64 lux luma)) i
      / denomF64 (entries.map (distF64 lux luma))

/-- Rust's saturating `f64 as u64` cast on the exact real value: truncation
toward zero, negatives (and the `NaN` arising from `0/0`, which is `0` here)
collapse to `0`, values at or above `2^64` saturate. -/
noncomputable def realToU64 (r : ℝ) : Nat :=
  min ⌊r⌋₊ (2 ^ 64 - 1)

/-- The observable behaviour of `Controller::predict` (controller.rs lines
144-189): sends nothing when `entries` is empty, otherwise sends the
prediction cast to `u64`. -/
noncomputable def predictOut (entries : List Entry) (lux : Nat)
    (luma : Option Nat) : Option Nat :=
  if entries.isEmpty then none
  else some (realToU64 (predictReal entries lux luma))

/-- The `Controller::process` tick (controller.rs lines 72-93). `userDrain`
is `user_rx.try_iter().last()`, the most recent drained user brightness
(`none` when the channel was empty). The result is `none` when a panic
fired inside `learn`, otherwise the new state together with the value sent
on `prediction_tx` (if any). -/
noncomputable def processFn (c : Controller) (lux : Nat) (luma : Option Nat)
    (userDrain : Option Nat) : Option (Controller × Option Nat) :=
  let c0 : Controller := { c with initial_brightness := none }
  match userDrain.or c.initial_brightness with
  | some brightness =>
      let p : Entry :=
        match c.pending with
        | none => ⟨lux, luma, brightness⟩
        | some e => ⟨e.lux, e.luma, brightness⟩
      some ({ c0 with pending := some p,
                      pending_cooldown := PENDING_COOLDOWN_RESET }, none)
  | none =>
      if c.pending_cooldown > 0 then
        some ({ c0 with pending_cooldown := c.pending_cooldown - 1 }, none)
      else if c.pending.isSome then
        (learnFn c0).map (fun c1 => (c1, none))
      else
        some (c0, predictOut c.entries lux luma)

/-- Iterated `process` ticks: each element of the input list is one tick's
`(lux, luma, drained user value)`; the run stops with `none` if any tick
panics, and otherwise returns the final state and the list of per-tick
prediction outputs. -/
noncomputable def runTicks (c : Controller) :
    List (Nat × Option Nat × Option Nat) → Option (Controller × List (Option Nat))
  | [] => some (c, [])
  | (lux, luma, user) :: rest =>
      match processFn c lux luma user with
      | none => none
      | some (c1, out) =>
          (runTicks c1 rest).map (fun r => (r.1, out :: r.2))

/-- The `smoothen` function (als/mod.rs lines 15-22): the index of the
first threshold strictly above the raw value, or the list length when no
threshold exceeds it. -/
def smoothen (raw_lux : Nat) (thresholds : List Nat) : Nat :=
  match thresholds.findIdx? (fun threshold => raw_lux < threshold) with
  | some i => i
  | none => thresholds.length

/-- The webcam consumer ALS default (als/webcam.rs line 15). -/
def DEFAULT_LUX : Nat := 100

/-- One `Als::get_raw` call of the webcam consumer (als/webcam.rs lines
103-111): `queued` is the content of the channel drained by `try_iter()`
(oldest first); the call returns the most recent queued value, or the
cached value when the channel is empty, and stores the returned value back
into the cache. The result is `(returned value, new cache)`. -/
def webcamGetRaw (cache : Nat) (queued : List Nat) : Nat × Nat :=
  let new_value := queued.getLast?.getD cache
  (new_value, new_value)

/-- A run of `get_raw` calls on the webcam consumer ALS starting from cache
value `cache`: element `i` of `batches` is the list of values queued on the
channel between call `i - 1` and call `i`. Returns the list of values that
the successive calls returned. -/
def webcamRun (cache : Nat) : List (List Nat) → List Nat
  | [] => []
  | q :: qs =>
      let r := webcamGetRaw cache q
      r.1 :: webcamRun r.2 qs

/-- Rust's saturating `f64 as u64` cast on an exact rational value. -/
def ratToU64 (q : ℚ) : Nat :=
  if q < 0 then 0 else min q.floor.toNat (2 ^ 64 - 1)

/-- The illuminance arithmetic of the IIO `Als::get_raw` (als/iio.rs lines
54-58 and parse_illuminance lines 83-95): given the value read from
`in_illuminance_raw` and the optional contents of the scale and offset
files (absent or unreadable modelled as `none`, defaulting to `1` and `0`),
the result is `(value + offset) * scale` cast to `u64`. -/
def iioIlluminanceRaw (value : ℚ) (scaleFile offsetFile : Option ℚ) : Nat :=
  ratToU64 ((value + offsetFile.getD 0) * scaleFile.getD 1)

/-- The RGB-intensity arithmetic of the IIO `Als::get_raw` (als/iio.rs
lines 60-68): given the three channel readings, the result is
`-0.32466 * r + 1.57837 * g + -0.73191 * b` cast to `u64`. -/
def iioIntensityRaw (r g b : ℚ) : Nat :=
  ratToU64 (-0.32466 * r + 1.57837 * g + -0.73191 * b)


/-- The eviction table exactly as the claim under check states it (sign of
`e` with respect to the pending `p`): evict always on the two strict
diagonal corners, evict iff `e.brightness <= p.brightness` in the cells
(lux below & luma equal), (lux below & luma above), (lux equal & luma
above), evict iff `e.brightness >= p.brightness` in the cells (lux equal &
luma below), (lux above & luma below), (lux above & luma equal), and in the
centre cell evict iff the brightness differs. -/
def claimEvict (e p : Entry) : Bool :=
  (e.lux < p.lux && optLt e.luma p.luma)
    || (p.lux < e.lux && optLt p.luma e.luma)
    || (e.lux < p.lux && e.luma == p.luma && e.brightness ≤ p.brightness)
    || (e.lux < p.lux && optLt p.luma e.luma && e.brightness ≤ p.brightness)
    || (e.lux == p.lux && optLt p.luma e.luma && e.brightness ≤ p.brightness)
    || (e.lux == p.lux && optLt e.luma p.luma && p.brightness ≤ e.brightness)
    || (p.lux < e.lux && optLt e.luma p.luma && p.brightness ≤ e.brightness)
    || (p.lux < e.lux && e.luma == p.luma && p.brightness ≤ e.brightness)
    || (e.lux == p.lux && e.luma == p.luma && e.brightness != p.brightness)

/-- The corrected eviction table, read off the source: an old entry is
never evicted on the strict diagonal corners; it is evicted iff it is
BRIGHTER than the pending in the cells (lux below & luma equal), (lux below
& luma above), (lux equal & luma above); evicted iff it is DIMMER than the
pending in the cells (lux equal & luma below), (lux above & luma below),
(lux above & luma equal); and in the centre cell (same lux, same luma) it
is evicted iff the brightness differs (an equal-brightness centre entry is
removed by `retain` but is replaced by the structurally identical pending
entry). -/
def amendedEvict (e p : Entry) : Bool :=
  (e.lux < p.lux && e.luma == p.luma && p.brightness < e.brightness)
    || (e.lux < p.lux && optLt p.luma e.luma && p.brightness < e.brightness)
    || (e.lux == p.lux && optLt e.luma p.luma && e.brightness < p.brightness)
    || (e.lux == p.lux && optLt p.luma e.luma && p.brightness < e.brightness)
    || (p.lux < e.lux && optLt e.luma p.luma && e.brightness < p.brightness)
    || (p.lux < e.lux && e.luma == p.luma && e.brightness < p.brightness)
    || (e.lux == p.lux && e.luma == p.luma && e.brightness != p.brightness)


/-- The keep table of `Controller::learn` factored through the eight
comparison atoms: `l1/l2/l3` are lux below/equal/above, `u1/u2/u3` are luma
below/equal/above (in the `Option` order), `ble` is `e.b <= p.b` and `bge`
is `p.b <= e.b`. -/
def keepTableB (l1 l2 l3 u1 u2 u3 ble bge : Bool) : Bool :=
  (l1 && u1) || (l1 && u2 && ble) || (l1 && u3 && ble)
    || (l2 && u1 && bge) || (l2 && u3 && ble)
    || (l3 && u1 && bge) || (l3 && u2 && bge) || (l3 && u3)

/-- The corrected eviction table factored through the same comparison
atoms as `keepTableB`. -/
def evictTableB (l1 l2 l3 u1 u2 u3 ble bge : Bool) : Bool :=
  (l1 && u2 && !ble) || (l1 && u3 && !ble)
    || (l2 && u1 && !bge) || (l2 && u3 && !ble)
    || (l3 && u1 && !bge) || (l3 && u2 && !bge)
    || (l2 && u2 && !(ble && bge))

/-! ## Theorems -/

/-- C3: when a `Pending` entry already exists, a newly observed user
brightness value updates only `Pending.brightness`; the frozen `lux` and
`luma` of the pending entry are preserved regardless of the current tick's
`lux` and `luma`, the cooldown is reset, and nothing is predicted. -/
theorem process_pending_freeze (c : Controller) (e : Entry) (lux : Nat)
    (luma : Option Nat) (b : Nat) (hp : c.pending = some e) :
    processFn c lux luma (some b) =
      some ({ c with initial_brightness := none,
                     pending := some ⟨e.lux, e.luma, b⟩,
                     pending_cooldown := PENDING_COOLDOWN_RESET }, none) := by
  simp [processFn, hp, Option.or]

/-- Witness for `process_pending_freeze` at a concrete state: the tick's
own `lux = 7, luma = 8` do not leak into the pending entry. -/
theorem process_pending_freeze_witness :
    processFn ⟨5, some ⟨1, some 2, 3⟩, [], none⟩ 7 (some 8) (some 9) =
      some (⟨15, some ⟨1, some 2, 9⟩, [], none⟩, none) :=
  process_pending_freeze ⟨5, some ⟨1, some 2, 3⟩, [], none⟩ ⟨1, some 2, 3⟩ 7
    (some 8) 9 rfl

/-- C10: every state built by `Controller::new` satisfies the invariant
`pending_cooldown > 0 → pending.is_some()`, and `process` preserves it;
moreover `process` never hits the `No pending entry to learn` panic
(modelled as a `none` result), because the `learn` branch is guarded by
`pending.is_some()`. -/
theorem process_invariant (c : Controller) (lux : Nat) (luma : Option Nat)
    (u : Option Nat)
    (hinv : 0 < c.pending_cooldown → c.pending.isSome) :
    (∀ r loaded c0, newController r loaded = some c0 →
      (0 < c0.pending_cooldown → c0.pending.isSome)) ∧
    ∃ c1 out, processFn c lux luma u = some (c1, out) ∧
      (0 < c1.pending_cooldown → c1.pending.isSome) := by
  constructor
  · intro r loaded c0 h0
    cases r with
    | none => simp [newController] at h0
    | some b =>
        simp [newController] at h0
        intro hcd
        rw [← h0] at hcd
        simp at hcd
  · cases hu : u.or c.initial_brightness with
    | some b =>
        cases hp : c.pending with
        | none =>
            exact ⟨{ c with initial_brightness := none,
                            pending := some ⟨lux, luma, b⟩,
                            pending_cooldown := PENDING_COOLDOWN_RESET }, none,
              by simp [processFn, hu, hp], by simp⟩
        | some e =>
            exact ⟨{ c with initial_brightness := none,
                            pending := some ⟨e.lux, e.luma, b⟩,
                            pending_cooldown := PENDING_COOLDOWN_RESET }, none,
              by simp [processFn, hu, hp], by simp⟩
    | none =>
        by_cases hcd : 0 < c.pending_cooldown
        · exact ⟨{ c with initial_brightness := none,
                          pending_cooldown := c.pending_cooldown - 1 }, none,
            by simp [processFn, hu, hcd], fun _ => by simpa using hinv hcd⟩
        · cases hp : c.pending with
          | some p =>
              exact ⟨{ c with initial_brightness := none, pending := none,
                              entries := learnEntries c.entries p }, none,
                by simp [processFn, hu, hcd, hp, learnFn],
                fun h1 => (hcd h1).elim⟩
          | none =>
              exact ⟨{ c with initial_brightness := none },
                predictOut c.entries lux luma,
                by simp [processFn, hu, hcd, hp],
                fun h1 => (hcd h1).elim⟩

/-- Witness for `process_invariant` at the freshly constructed state
(`pending_cooldown = 0`, `pending = none`) with an empty user drain. -/
theorem process_invariant_witness :
    (∀ r loaded c0, newController r loaded = some c0 →
      (0 < c0.pending_cooldown → c0.pending.isSome)) ∧
    ∃ c1 out, processFn ⟨0, none, [], none⟩ 3 (some 4) none = some (c1, out) ∧
      (0 < c1.pending_cooldown → c1.pending.isSome) :=
  process_invariant ⟨0, none, [], none⟩ 3 (some 4) none (by simp)

/-- C8: `Controller::new` panics (handshake timeout) when no brightness
value arrives on `user_rx` inside the 2-second window; when a value `b`
does arrive it is kept as a synthetic initial user brightness exactly when
the loaded entries are empty — so the first processed observation becomes
the pending entry `(lux, luma, b)` — and it is discarded otherwise. -/
theorem new_handshake (loaded : List Entry) (b lux : Nat) (luma : Option Nat) :
    newController none loaded = none ∧
    (loaded = [] →
      ∃ c0, newController (some b) loaded = some c0 ∧
        c0.initial_brightness = some b ∧ c0.entries = [] ∧
        processFn c0 lux luma none =
          some ({ c0 with initial_brightness := none,
                          pending := some ⟨lux, luma, b⟩,
                          pending_cooldown := PENDING_COOLDOWN_RESET }, none)) ∧
    (loaded ≠ [] →
      ∃ c0, newController (some b) loaded = some c0 ∧
        c0.initial_brightness = none) := by
  refine ⟨rfl, ?_, ?_⟩
  · rintro rfl
    refine ⟨_, rfl, ?_⟩
    simp [newController, processFn, Option.or]
  · intro hne
    refine ⟨_, rfl, ?_⟩
    simp [newController, hne]

/-- Witness for `new_handshake`: with empty loaded data and initial
brightness 50, the first tick at `lux = 100, luma = 30` freezes the pending
entry `(100, some 30, 50)`. -/
theorem new_handshake_witness :
    ∃ c0, newController (some 50) [] = some c0 ∧
      c0.initial_brightness = some 50 ∧ c0.entries = [] ∧
      processFn c0 100 (some 30) none =
        some ({ c0 with initial_brightness := none,
                        pending := some ⟨100, some 30, 50⟩,
                        pending_cooldown := PENDING_COOLDOWN_RESET }, none) :=
  (new_handshake [] 50 100 (some 30)).2.1 rfl

/-- In a list sorted by `≤`, every element is at most the last one. -/
theorem sorted_all_le_getLast (T : List Nat) (hs : T.Sorted (· ≤ ·)) :
    ∀ tl, T.getLast? = some tl → ∀ t ∈ T, t ≤ tl := by
  induction T with
  | nil => intro tl htl; simp at htl
  | cons a ts ih =>
      intro tl htl t ht
      cases ts with
      | nil =>
          simp at htl ht
          omega
      | cons b ts2 =>
          rw [List.getLast?_cons_cons] at htl
          rw [List.sorted_cons] at hs
          have hrec := ih hs.2 tl htl
          rcases List.mem_cons.1 ht with rfl | hmem
          · exact le_trans (hs.1 b (by simp)) (hrec b (by simp))
          · exact hrec t hmem

/-- On a sorted threshold list, `smoothen` returns the count of thresholds
at most the raw value. -/
theorem smoothen_eq_countP (T : List Nat) (hs : T.Sorted (· ≤ ·)) (r : Nat) :
    smoothen r T = T.countP (fun t => decide (t ≤ r)) := by
  induction T with
  | nil => simp [smoothen]
  | cons t ts ih =>
      rw [List.sorted_cons] at hs
      by_cases hr : r < t
      · have hz : ts.countP (fun t => decide (t ≤ r)) = 0 := by
          rw [List.countP_eq_zero]
          intro a ha
          simp only [decide_eq_true_eq]
          have := hs.1 a ha
          omega
        simp [smoothen, List.findIdx?_cons, hr, List.countP_cons, hz]
      · have ht : t ≤ r := by omega
        have hstep : smoothen r (t :: ts) = smoothen r ts + 1 := by
          simp only [smoothen, List.findIdx?_cons, decide_eq_true_eq]
          rw [if_neg hr]
          cases h : List.findIdx? (fun threshold => decide (r < threshold)) ts with
          | none => simp [h]
          | some i => simp [h]
        rw [hstep, ih hs.2, List.countP_cons]
        simp [ht]

/-- C6: for every ascending threshold list `T` and raw value `r`,
`smoothen r T` equals the number of thresholds `t ∈ T` with `t ≤ r`; in
particular it is `0` when `r` is below the first threshold and `|T|` when
`r` is at least the last threshold (and `|T| = 0` for the empty list). -/
theorem smoothen_profile_index (T : List Nat) (r : Nat)
    (hs : T.Sorted (· ≤ ·)) :
    smoothen r T = T.countP (fun t => decide (t ≤ r)) ∧
    (∀ t0, T.head? = some t0 → r < t0 → smoothen r T = 0) ∧
    (∀ tl, T.getLast? = some tl → tl ≤ r → smoothen r T = T.length) := by
  refine ⟨smoothen_eq_countP T hs r, ?_, ?_⟩
  · intro t0 h0 hrt
    cases T with
    | nil => simp at h0
    | cons a ts =>
        simp only [List.head?_cons, Option.some.injEq] at h0
        subst h0
        rw [smoothen_eq_countP _ hs, List.countP_eq_zero]
        rw [List.sorted_cons] at hs
        intro x hx
        simp only [decide_eq_true_eq]
        rcases List.mem_cons.1 hx with rfl | hmem
        · omega
        · have := hs.1 x hmem
          omega
  · intro tl htl hlr
    rw [smoothen_eq_countP _ hs, List.countP_eq_length]
    intro x hx
    simp only [decide_eq_true_eq]
    exact le_trans (sorted_all_le_getLast T hs tl htl x hx) hlr

/-- Witness for `smoothen_profile_index` on the threshold list of the
repository's own test, at raw value 123. -/
theorem smoothen_profile_index_witness :
    smoothen 123 [100, 200] =
        ([100, 200] : List Nat).countP (fun t => decide (t ≤ 123)) ∧
    (∀ t0, ([100, 200] : List Nat).head? = some t0 → 123 < t0 →
      smoothen 123 [100, 200] = 0) ∧
    (∀ tl, ([100, 200] : List Nat).getLast? = some tl → tl ≤ 123 →
      smoothen 123 [100, 200] = 2) :=
  smoothen_profile_index [100, 200] 123 (by simp)

/-- The value returned by the `i`-th `get_raw` call of the webcam consumer
ALS equals the most recent value queued up to that call, or the starting
cache value when nothing was ever queued. -/
theorem webcamRun_get? (batches : List (List Nat)) :
    ∀ (cache i : Nat), i < batches.length →
      (webcamRun cache batches)[i]? =
        some ((((batches.take (i + 1)).flatten).getLast?).getD cache) := by
  induction batches with
  | nil => intro cache i hi; simp at hi
  | cons q qs ih =>
      intro cache i hi
      cases i with
      | zero => simp [webcamRun, webcamGetRaw]
      | succ j =>
          have hj : j < qs.length := by simpa using hi
          have hstep : (webcamRun cache (q :: qs))[j + 1]? =
              (webcamRun (q.getLast?.getD cache) qs)[j]? := by
            simp [webcamRun, webcamGetRaw]
          rw [hstep, ih _ j hj]
          congr 1
          rw [List.take_succ_cons, List.flatten_cons, List.getLast?_append]
          cases h : ((qs.take (j + 1)).flatten).getLast? with
          | none => simp [h, Option.or]
          | some v => simp [h, Option.or]

/-- C7: starting from the constructed webcam consumer ALS (cache
`DEFAULT_LUX = 100`), every `get_raw` call returns the most recently sent
channel value so far — the default 100 when none was ever sent — and the
cache keeps returning that value while the channel stays empty (the `i`-th
call returns the last element of everything queued up to it, with default
100). -/
theorem webcam_cache_behaviour (batches : List (List Nat)) (i : Nat)
    (hi : i < batches.length) :
    (webcamRun DEFAULT_LUX batches)[i]? =
      some ((((batches.take (i + 1)).flatten).getLast?).getD DEFAULT_LUX) :=
  webcamRun_get? batches DEFAULT_LUX i hi

/-- Witness for `webcam_cache_behaviour`: after sending 42 and 43, a third
`get_raw` with an empty channel still returns 43; also the very first call
with an empty channel returns the default 100. -/
theorem webcam_cache_behaviour_witness :
    (webcamRun DEFAULT_LUX [[42, 43], [], []])[2]? = some 43 ∧
    (webcamRun DEFAULT_LUX [[]])[0]? = some 100 := by
  have h1 := webcam_cache_behaviour [[42, 43], [], []] 2 (by decide)
  have h2 := webcam_cache_behaviour [[]] 0 (by decide)
  simp at h1 h2
  exact ⟨by simpa using h1, by simpa using h2⟩

/-- C9: the IIO ALS raw-value arithmetic. For the illuminance sensor the
result is `(value + offset) * scale` cast to `u64`, with `scale` and
`offset` defaulting to `1` and `0` when the files are absent or unreadable;
for the RGB-intensity fallback the result is
`-0.32466*R + 1.57837*G - 0.73191*B`, clamped at zero and truncated when it
fits in `u64`. -/
theorem iio_get_raw_arith (v r g b : ℚ) (sF oF : Option ℚ) :
    iioIlluminanceRaw v none none = ratToU64 v ∧
    iioIlluminanceRaw v sF oF = ratToU64 ((v + oF.getD 0) * sF.getD 1) ∧
    (-0.32466 * r + 1.57837 * g - 0.73191 * b < 0 →
      iioIntensityRaw r g b = 0) ∧
    (0 ≤ -0.32466 * r + 1.57837 * g - 0.73191 * b →
      -0.32466 * r + 1.57837 * g - 0.73191 * b < 2 ^ 64 →
      iioIntensityRaw r g b =
        (-0.32466 * r + 1.57837 * g - 0.73191 * b).floor.toNat) := by
  have he : -0.32466 * r + 1.57837 * g + -0.73191 * b =
      -0.32466 * r + 1.57837 * g - 0.73191 * b := by ring
  refine ⟨by simp [iioIlluminanceRaw], rfl, ?_, ?_⟩
  · intro h
    have hlt : -0.32466 * r + 1.57837 * g + -0.73191 * b < 0 := by
      rw [he]; exact h
    unfold iioIntensityRaw ratToU64
    rw [if_pos hlt]
  · intro h0 h64
    have h0e : 0 ≤ -0.32466 * r + 1.57837 * g + -0.73191 * b := by
      rw [he]; exact h0
    unfold iioIntensityRaw ratToU64
    rw [if_neg (not_lt.2 h0e), he]
    have hf : (-0.32466 * r + 1.57837 * g - 0.73191 * b).floor < (2 : ℤ) ^ 64 := by
      have h1 := Int.floor_le (-0.32466 * r + 1.57837 * g - 0.73191 * b)
      have h2 : ((-0.32466 * r + 1.57837 * g - 0.73191 * b).floor : ℚ) < 2 ^ 64 :=
        lt_of_le_of_lt h1 h64
      exact_mod_cast h2
    have hle : (-0.32466 * r + 1.57837 * g - 0.73191 * b).floor.toNat ≤ 2 ^ 64 - 1 := by
      omega
    exact min_eq_left hle

/-- Witness for `iio_get_raw_arith`: a negative RGB intensity clamps to 0
(channels R = 100, G = 10, B = 200 give a negative reading). -/
theorem iio_get_raw_arith_witness :
    iioIntensityRaw 100 10 200 = 0 :=
  (iio_get_raw_arith 7 100 10 200 none none).2.2.1 (by norm_num)

/-- One cooldown tick: with an empty user drain, no synthetic initial value
and a positive cooldown, `process` only decrements the cooldown. -/
theorem processFn_cooldown_tick (c : Controller) (lux : Nat)
    (luma : Option Nat) (hin : c.initial_brightness = none)
    (hcd : 0 < c.pending_cooldown) :
    processFn c lux luma none =
      some ({ c with initial_brightness := none,
                     pending_cooldown := c.pending_cooldown - 1 }, none) := by
  simp [processFn, hin, hcd, Option.or]

/-- The learning tick: with an empty user drain, no synthetic initial
value, an expired cooldown and a pending entry, `process` runs `learn`. -/
theorem processFn_learn_tick (c : Controller) (p : Entry) (lux : Nat)
    (luma : Option Nat) (hin : c.initial_brightness = none)
    (hcd : c.pending_cooldown = 0) (hp : c.pending = some p) :
    processFn c lux luma none =
      some ({ c with initial_brightness := none, pending := none,
                     entries := learnEntries c.entries p }, none) := by
  simp [processFn, hin, hcd, hp, learnFn, Option.or]

/-- Ticks with an empty user drain and enough remaining cooldown only count
the cooldown down, touching neither the pending entry nor the data and
emitting no prediction. -/
theorem runTicks_cooldown (ticks : List (Nat × Option Nat)) :
    ∀ c : Controller, c.initial_brightness = none →
      ticks.length ≤ c.pending_cooldown →
      runTicks c (ticks.map (fun t => (t.1, t.2, none))) =
        some ({ c with pending_cooldown := c.pending_cooldown - ticks.length },
          ticks.map (fun _ => none)) := by
  induction ticks with
  | nil =>
      intro c hin hle
      obtain ⟨cd, pd, en, ib⟩ := c
      simp [runTicks]
  | cons t ts ih =>
      intro c hin hle
      obtain ⟨cd, pd, en, ib⟩ := c
      simp only at hin
      subst hin
      simp only [List.length_cons] at hle
      simp only [List.map_cons, runTicks]
      rw [processFn_cooldown_tick _ t.1 t.2 rfl (by simp; omega)]
      simp only
      rw [ih _ rfl (by simp; omega)]
      simp only [Option.map_some]
      simp [Controller.mk.injEq]
      omega

/-- `runTicks` over an appended tick list runs the two halves in
sequence. -/
theorem runTicks_append (l1 l2 : List (Nat × Option Nat × Option Nat)) :
    ∀ c, runTicks c (l1 ++ l2) =
      (runTicks c l1).bind (fun r =>
        (runTicks r.1 l2).map (fun s => (s.1, r.2 ++ s.2))) := by
  induction l1 with
  | nil =>
      intro c
      simp only [List.nil_append, runTicks]
      cases h : runTicks c l2 with
      | none => simp [h]
      | some s => simp [h]
  | cons t ts ih =>
      intro c
      obtain ⟨lux, luma, user⟩ := t
      simp only [List.cons_append, runTicks]
      cases h : processFn c lux luma user with
      | none => simp
      | some r =>
          obtain ⟨c1, out⟩ := r
          simp only [List.append_eq]
          rw [ih c1]
          cases h1 : runTicks c1 ts with
          | none => simp
          | some s =>
              cases h2 : runTicks s.1 l2 with
              | none => simp [h2]
              | some u => simp [h2]

/-- C2: once a user change has set the Pending entry and
`pending_cooldown = 15`, ticks without a user change only decrement the
cooldown — 15 of them bring it to 0 with no learning and no prediction —
the 16-th user-silent tick runs `learn()`, and a user change at any point
of the cooldown resets `pending_cooldown` to 15, postponing `learn()`. -/
theorem process_cooldown_policy (c : Controller) (p : Entry)
    (hp : c.pending = some p)
    (hcd : c.pending_cooldown = PENDING_COOLDOWN_RESET)
    (hin : c.initial_brightness = none)
    (ticks : List (Nat × Option Nat)) :
    (ticks.length ≤ 15 →
      runTicks c (ticks.map (fun t => (t.1, t.2, none))) =
        some ({ c with pending_cooldown := 15 - ticks.length,
                       initial_brightness := none },
          ticks.map (fun _ => none))) ∧
    (ticks.length = 16 →
      runTicks c (ticks.map (fun t => (t.1, t.2, none))) =
        some ({ c with pending_cooldown := 0, pending := none,
                       entries := learnEntries c.entries p,
                       initial_brightness := none },
          ticks.map (fun _ => none))) ∧
    (∀ m lux luma b,
      processFn { c with pending_cooldown := m } lux luma (some b) =
        some ({ c with pending_cooldown := PENDING_COOLDOWN_RESET,
                       pending := some ⟨p.lux, p.luma, b⟩,
                       initial_brightness := none }, none)) := by
  obtain ⟨cd, pd, en, ib⟩ := c
  simp only at hp hcd hin
  subst hp hcd hin
  refine ⟨?_, ?_, ?_⟩
  · intro hlen
    rw [runTicks_cooldown ticks _ rfl (by simpa [PENDING_COOLDOWN_RESET] using hlen)]
    simp [PENDING_COOLDOWN_RESET]
  · intro h16
    have hne : ticks ≠ [] := by
      intro h
      rw [h] at h16
      simp at h16
    have hsplit : ticks = ticks.dropLast ++ [ticks.getLast hne] :=
      (List.dropLast_append_getLast hne).symm
    have hl1 : ticks.dropLast.length = 15 := by
      rw [List.length_dropLast, h16]
    rw [hsplit, List.map_append, runTicks_append,
      runTicks_cooldown ticks.dropLast _ rfl
        (by rw [hl1]; simp [PENDING_COOLDOWN_RESET])]
    have hstep := processFn_learn_tick
      ⟨0, some p, en, none⟩ p
      (ticks.getLast hne).1 (ticks.getLast hne).2 rfl rfl rfl
    simp [PENDING_COOLDOWN_RESET, runTicks, hstep, hl1, List.map_append]
  · intro m lux luma b
    simp [processFn, Option.or, PENDING_COOLDOWN_RESET]

/-- Witness for `process_cooldown_policy`: from cooldown 15 with pending
entry `(1, some 2, 3)`, two user-silent ticks leave cooldown 13, and a user
change during the cooldown resets it to 15. -/
theorem process_cooldown_policy_witness :
    (runTicks ⟨15, some ⟨1, some 2, 3⟩, [], none⟩
        ([(7, some 8), (9, none)].map (fun t => (t.1, t.2, none))) =
      some (⟨13, some ⟨1, some 2, 3⟩, [], none⟩, [none, none])) ∧
    (processFn ⟨4, some ⟨1, some 2, 3⟩, [], none⟩ 9 (some 5) (some 44) =
      some (⟨15, some ⟨1, some 2, 44⟩, [], none⟩, none)) := by
  have h := process_cooldown_policy ⟨15, some ⟨1, some 2, 3⟩, [], none⟩
    ⟨1, some 2, 3⟩ rfl rfl rfl [(7, some 8), (9, none)]
  refine ⟨by simpa using h.1 (by simp), ?_⟩
  have h3 := h.2.2 4 9 (some 5) 44
  simpa using h3


/-- Complementarity of the two factored tables: under the trichotomy
constraints on each comparison-atom triple, totality of `≤`, and the
assumption that the entry does not coincide with the pending one, the keep
table is the pointwise negation of the corrected eviction table. -/
theorem tableB_compl (l1 l2 l3 u1 u2 u3 ble bge : Bool)
    (hL : ((l1 && !l2 && !l3) || (!l1 && l2 && !l3) || (!l1 && !l2 && l3))
      = true)
    (hU : ((u1 && !u2 && !u3) || (!u1 && u2 && !u3) || (!u1 && !u2 && u3))
      = true)
    (hB : (ble || bge) = true)
    (hC : (l2 && u2 && ble && bge) = false) :
    keepTableB l1 l2 l3 u1 u2 u3 ble bge =
      !evictTableB l1 l2 l3 u1 u2 u3 ble bge := by
  revert hL hU hB hC
  revert l1 l2 l3 u1 u2 u3 ble bge
  decide

/-- The natural-number comparison atoms satisfy the exactly-one-of-three
constraint. -/
theorem natCmpAtoms (x y : Nat) :
    ((decide (x < y) && !(x == y) && !decide (y < x))
      || (!decide (x < y) && (x == y) && !decide (y < x))
      || (!decide (x < y) && !(x == y) && decide (y < x))) = true := by
  rcases Nat.lt_trichotomy x y with h | h | h
  · simp [h, Nat.ne_of_lt h, Nat.lt_asymm h]
  · subst h
    simp
  · simp [h, Nat.ne_of_gt h, Nat.lt_asymm h]

/-- The `Option` comparison atoms (with `None` below every `Some`) satisfy
the exactly-one-of-three constraint. -/
theorem optCmpAtoms (x y : Option Nat) :
    ((optLt x y && !(x == y) && !optLt y x)
      || (!optLt x y && (x == y) && !optLt y x)
      || (!optLt x y && !(x == y) && optLt y x)) = true := by
  cases x with
  | none =>
      cases y with
      | none => rfl
      | some b => rfl
  | some a =>
      cases y with
      | none => rfl
      | some b => exact natCmpAtoms a b

/-- Totality of `≤` on the brightness atoms. -/
theorem natLeTotalB (x y : Nat) :
    (decide (x ≤ y) || decide (y ≤ x)) = true := by
  by_cases h : x ≤ y
  · simp [h]
  · simp [h]
    omega

/-- The source `retain` predicate is the keep table applied to the
comparison atoms. -/
theorem keepEntry_eq_tableB (e p : Entry) :
    keepEntry e p = keepTableB (decide (e.lux < p.lux)) (e.lux == p.lux)
      (decide (p.lux < e.lux)) (optLt e.luma p.luma) (e.luma == p.luma)
      (optLt p.luma e.luma) (decide (e.brightness ≤ p.brightness))
      (decide (p.brightness ≤ e.brightness)) := rfl

/-- The corrected eviction table is the factored eviction table applied to
the comparison atoms. -/
theorem amendedEvict_eq_tableB (e p : Entry) :
    amendedEvict e p = evictTableB (decide (e.lux < p.lux)) (e.lux == p.lux)
      (decide (p.lux < e.lux)) (optLt e.luma p.luma) (e.luma == p.luma)
      (optLt p.luma e.luma) (decide (e.brightness ≤ p.brightness))
      (decide (p.brightness ≤ e.brightness)) := by
  have h1 : decide (p.brightness < e.brightness) =
      !decide (e.brightness ≤ p.brightness) := by
    by_cases h : e.brightness ≤ p.brightness <;> simp [h] <;> omega
  have h2 : decide (e.brightness < p.brightness) =
      !decide (p.brightness ≤ e.brightness) := by
    by_cases h : p.brightness ≤ e.brightness <;> simp [h] <;> omega
  have h3 : (e.brightness != p.brightness) =
      !(decide (e.brightness ≤ p.brightness)
        && decide (p.brightness ≤ e.brightness)) := by
    by_cases h1 : e.brightness ≤ p.brightness <;>
      by_cases h2 : p.brightness ≤ e.brightness <;>
        simp [h1, h2, bne_iff_ne] <;> omega
  unfold amendedEvict evictTableB
  rw [h1, h2, h3]

/-- For entries different from the pending one, the source's `retain`
predicate keeps exactly the entries outside the corrected eviction
table. -/
theorem keep_iff_not_amendedEvict (e p : Entry) (hne : e ≠ p) :
    keepEntry e p = true ↔ ¬ (amendedEvict e p = true) := by
  obtain ⟨el, eu, eb⟩ := e
  obtain ⟨pl, pu, pb⟩ := p
  have hne2 : ¬ (el = pl ∧ eu = pu ∧ eb = pb) := by
    intro h
    exact hne (by simp [Entry.mk.injEq, h.1, h.2.1, h.2.2])
  have hC : ((el == pl) && (eu == pu) && decide (eb ≤ pb) && decide (pb ≤ eb))
      = false := by
    by_cases h1 : el = pl
    · by_cases h2 : eu = pu
      · by_cases h3 : eb ≤ pb
        · by_cases h4 : pb ≤ eb
          · exact absurd ⟨h1, h2, by omega⟩ hne2
          · simp [h4]
        · simp [h3]
      · simp [h2]
    · simp [h1]
  rw [keepEntry_eq_tableB, amendedEvict_eq_tableB,
    tableB_compl _ _ _ _ _ _ _ _ (natCmpAtoms el pl) (optCmpAtoms eu pu)
      (natLeTotalB eb pb) hC]
  simp

/-- C1 (amended): after `learn()`, an old entry `e` is still a member of
`data.entries` iff it does NOT fall in an eviction cell of the CORRECTED
sign table `amendedEvict` (the claim's table has the corner cells and every
brightness inequality inverted); `p` itself is appended and the `Pending`
slot is cleared. -/
theorem learn_membership (c : Controller) (p e : Entry)
    (hp : c.pending = some p) :
    ∃ c1, learnFn c = some c1 ∧ c1.pending = none ∧ p ∈ c1.entries ∧
      (e ∈ c1.entries ↔
        (e ∈ c.entries ∧ amendedEvict e p = false) ∨ e = p) := by
  refine ⟨{ c with pending := none, entries := learnEntries c.entries p },
    by simp [learnFn, hp], rfl, ?_, ?_⟩
  · simp [learnEntries]
  · show e ∈ learnEntries c.entries p ↔ _
    unfold learnEntries
    constructor
    · intro hmem
      rcases List.mem_append.1 hmem with hf | hp2
      · have hm := List.mem_filter.1 hf
        by_cases heq : e = p
        · exact Or.inr heq
        · left
          refine ⟨hm.1, ?_⟩
          have := (keep_iff_not_amendedEvict e p heq).1 hm.2
          simpa using this
      · exact Or.inr (by simpa using hp2)
    · intro h
      rcases h with ⟨hd, hev⟩ | rfl
      · by_cases heq : e = p
        · exact List.mem_append.2 (Or.inr (by simp [heq]))
        · refine List.mem_append.2 (Or.inl (List.mem_filter.2 ⟨hd, ?_⟩))
          exact (keep_iff_not_amendedEvict e p heq).2 (by simp [hev])
      · exact List.mem_append.2 (Or.inr (by simp))

/-- Witness for `learn_membership`: pending `(10, some 20, 30)` against the
single old entry `(9, some 20, 31)` (darker environment, same screen,
brighter backlight — an evicted cell of the corrected table). -/
theorem learn_membership_witness :
    ∃ c1,
      learnFn ⟨0, some ⟨10, some 20, 30⟩, [⟨9, some 20, 31⟩], none⟩ =
        some c1 ∧
      c1.pending = none ∧ (⟨10, some 20, 30⟩ : Entry) ∈ c1.entries ∧
      ((⟨9, some 20, 31⟩ : Entry) ∈ c1.entries ↔
        ((⟨9, some 20, 31⟩ : Entry) ∈ [(⟨9, some 20, 31⟩ : Entry)] ∧
          amendedEvict ⟨9, some 20, 31⟩ ⟨10, some 20, 30⟩ = false) ∨
        (⟨9, some 20, 31⟩ : Entry) = ⟨10, some 20, 30⟩) :=
  learn_membership ⟨0, some ⟨10, some 20, 30⟩, [⟨9, some 20, 31⟩], none⟩
    ⟨10, some 20, 30⟩ ⟨9, some 20, 31⟩ rfl

/-- Counterexample to C1 as stated: the entry `(9, some 19, 29)` falls in
the claim's always-evict corner (darker environment AND darker screen),
yet `learn()` with pending `(10, some 20, 30)` KEEPS it — the source's
`retain` keeps exactly what the claim's table says to evict. -/
theorem learn_claim_table_cex :
    claimEvict ⟨9, some 19, 29⟩ ⟨10, some 20, 30⟩ = true ∧
    learnFn ⟨0, some ⟨10, some 20, 30⟩, [⟨9, some 19, 29⟩], none⟩ =
      some ⟨0, none, [⟨9, some 19, 29⟩, ⟨10, some 20, 30⟩], none⟩ ∧
    (⟨9, some 19, 29⟩ : Entry) ∈
      [(⟨9, some 19, 29⟩ : Entry), ⟨10, some 20, 30⟩] := by
  decide

/-- The only full-length sublist of a list is the list itself. -/
theorem sublistsLen_length_self {α : Type} (l : List α) :
    l.sublistsLen l.length = [l] := by
  induction l with
  | nil => rfl
  | cons a t ih =>
      rw [List.length_cons, List.sublistsLen_succ_cons,
        List.sublistsLen_of_length_lt (by omega), ih]
      rfl

/-- Peeling one distance off the combinations denominator: for a nonempty
tail, the head either joins every size `n-1` combination of the tail or is
left out of the single full-tail combination. -/
theorem denomF64_cons (d : ℝ) (t : List ℝ) (hne : t ≠ []) :
    denomF64 (d :: t) = t.prod + d * denomF64 t := by
  obtain ⟨u, t2, rfl⟩ : ∃ u t2, t = u :: t2 := by
    cases t with
    | nil => exact absurd rfl hne
    | cons u t2 => exact ⟨u, t2, rfl⟩
  unfold denomF64
  simp only [List.length_cons, Nat.add_sub_cancel]
  rw [List.sublistsLen_succ_cons]
  rw [show t2.length + 1 = (u :: t2).length from by simp,
    sublistsLen_length_self]
  simp only [List.map_append, List.sum_append, List.map_cons, List.map_nil,
    List.sum_cons, List.sum_nil, List.map_map, List.length_cons,
    Nat.add_sub_cancel]
  have hcomp : (List.prod ∘ (List.cons d)) = (fun l : List ℝ => d * l.prod) := by
    funext l
    simp
  rw [hcomp, List.sum_map_mul_left]
  ring

/-- The omit-one product at index 0 of a cons. -/
theorem otherProd_cons_zero (d : ℝ) (t : List ℝ) :
    otherProd (d :: t) 0 = t.prod := by
  simp [otherProd]

/-- The omit-one product at a successor index of a cons. -/
theorem otherProd_cons_succ (d : ℝ) (t : List ℝ) (k : Nat) :
    otherProd (d :: t) (k + 1) = d * otherProd t k := by
  simp [otherProd, List.take_succ_cons, List.drop_succ_cons]

/-- The code's `distance_denominator` — the sum of the products of all
size `n - 1` combinations — equals the sum over all indices of the product
of the other distances. -/
theorem denomF64_eq_sum (ds : List ℝ) (hne : ds ≠ []) :
    denomF64 ds = ∑ k ∈ Finset.range ds.length, otherProd ds k := by
  induction ds with
  | nil => exact absurd rfl hne
  | cons d t ih =>
      by_cases ht : t = []
      · subst ht
        simp [denomF64, otherProd]
      · rw [denomF64_cons d t ht, ih ht, List.length_cons,
          Finset.sum_range_succ']
        simp only [otherProd_cons_succ, otherProd_cons_zero]
        rw [Finset.mul_sum]
        ring

/-- When the distance list contains a zero at position `|A|`, every
omit-one product except the one omitting the zero still contains the zero
factor and vanishes. -/
theorem otherProd_append_zero (A B : List ℝ) (k : Nat) (hk : k ≠ A.length) :
    otherProd (A ++ 0 :: B) k = 0 := by
  rcases Nat.lt_or_ge k A.length with h | h
  · apply List.prod_eq_zero
    apply List.mem_append_right
    have hdrop : (A ++ 0 :: B).drop (k + 1) = A.drop (k + 1) ++ 0 :: B :=
      List.drop_append_of_le_length (by omega)
    rw [hdrop]
    exact List.mem_append_right _ (List.mem_cons_self _ _)
  · have h2 : A.length < k := by omega
    apply List.prod_eq_zero
    apply List.mem_append_left
    obtain ⟨m, rfl⟩ : ∃ m, k = A.length + (m + 1) := ⟨k - A.length - 1, by omega⟩
    rw [List.take_append]
    exact List.mem_append_right _ (by
      rw [List.take_succ_cons]
      exact List.mem_cons_self _ _)

/-- The omit-one product that skips the zero distance is the product of
all the other distances. -/
theorem otherProd_append_zero_self (A B : List ℝ) :
    otherProd (A ++ 0 :: B) A.length = A.prod * B.prod := by
  unfold otherProd
  rw [List.take_left]
  have hdrop : (A ++ 0 :: B).drop (A.length + 1) = B := List.drop_append 1
  rw [hdrop, List.prod_append]

/-- Bridging list-range sums and `Finset.range` sums. -/
theorem listRangeSum_eq (n : Nat) (f : Nat → ℝ) :
    ((List.range n).map f).sum = ∑ i ∈ Finset.range n, f i := by
  induction n with
  | zero => simp
  | succ m ih =>
      rw [List.range_succ, Finset.sum_range_succ, List.map_append,
        List.sum_append, ih]
      simp

/-- When exactly one entry sits at distance zero from the query, the
prediction collapses to that entry's brightness: its omit-one product
equals the denominator (all other combination products carry the zero
factor), and every other summand vanishes. -/
theorem predictReal_exact_hit (lux : Nat) (luma : Option Nat)
    (A B : List Entry) (e : Entry)
    (hA : ∀ x ∈ A, distF64 lux luma x ≠ 0)
    (hB : ∀ x ∈ B, distF64 lux luma x ≠ 0)
    (h0 : distF64 lux luma e = 0) :
    predictReal (A ++ e :: B) lux luma = e.brightness := by
  have hds : (A ++ e :: B).map (distF64 lux luma) =
      A.map (distF64 lux luma) ++ 0 :: B.map (distF64 lux luma) := by
    rw [List.map_append, List.map_cons, h0]
  have hlenA : (A.map (distF64 lux luma)).length = A.length := by simp
  have hlen : (A ++ e :: B).length = A.length + B.length + 1 := by
    simp
    omega
  have hPA : (A.map (distF64 lux luma)).prod ≠ 0 := by
    apply List.prod_ne_zero
    intro hmem
    obtain ⟨x, hx, hx0⟩ := List.mem_map.1 hmem
    exact hA x hx hx0
  have hPB : (B.map (distF64 lux luma)).prod ≠ 0 := by
    apply List.prod_ne_zero
    intro hmem
    obtain ⟨x, hx, hx0⟩ := List.mem_map.1 hmem
    exact hB x hx hx0
  have hP : (A.map (distF64 lux luma)).prod * (B.map (distF64 lux luma)).prod
      ≠ 0 := mul_ne_zero hPA hPB
  have hdenom :
      denomF64 (A.map (distF64 lux luma) ++ 0 :: B.map (distF64 lux luma)) =
      (A.map (distF64 lux luma)).prod * (B.map (distF64 lux luma)).prod := by
    rw [denomF64_eq_sum _ (by simp)]
    rw [show (A.map (distF64 lux luma) ++ 0 :: B.map (distF64 lux luma)).length
      = A.length + B.length + 1 from by simp; omega]
    rw [Finset.sum_eq_single_of_mem A.length (Finset.mem_range.2 (by omega))
      (fun k _ hkne =>
        otherProd_append_zero _ _ k (by rw [hlenA]; exact hkne))]
    rw [← hlenA]
    exact otherProd_append_zero_self _ _
  unfold predictReal
  rw [hds, hlen, hdenom]
  rw [Finset.sum_eq_single_of_mem A.length (Finset.mem_range.2 (by omega))
    (fun k _ hkne => by
      rw [otherProd_append_zero _ _ k (by rw [hlenA]; exact hkne)]
      simp)]
  have hget : (A ++ e :: B).getD A.length default = e := by
    unfold List.getD
    rw [List.get?_eq_getElem?, List.getElem?_append_right (le_refl A.length)]
    simp
  rw [hget]
  rw [show otherProd (A.map (distF64 lux luma) ++ 0 :: B.map (distF64 lux luma))
      A.length
    = (A.map (distF64 lux luma)).prod * (B.map (distF64 lux luma)).prod from by
      rw [← hlenA]
      exact otherProd_append_zero_self _ _]
  rw [mul_div_assoc, div_self hP, mul_one]

/-- With a single entry the omit-one product and the denominator are the
empty products, so the prediction is that entry's brightness. -/
theorem predictReal_single (f : Entry) (lux : Nat) (luma : Option Nat) :
    predictReal [f] lux luma = f.brightness := by
  unfold predictReal
  simp [otherProd, denomF64]

/-- Rust's `f64 as u64` cast is the identity on exact `u64` values. -/
theorem realToU64_natCast (b : Nat) (hb : b < 2 ^ 64) :
    realToU64 (b : ℝ) = b := by
  unfold realToU64
  rw [Nat.floor_natCast]
  omega

/-- C4 (amended): `predict` sends nothing on an empty data set; with
exactly one entry it sends that entry's brightness for every query point;
and when exactly one entry sits at distance 0 from the query (every other
entry at nonzero distance) it sends that entry's brightness, with no
division-by-zero panic. (With two or more entries at distance 0 the `f64`
sum degenerates to `NaN` and the cast sends 0 — see the counterexample.) -/
theorem predict_edge_cases (lux : Nat) (luma : Option Nat)
    (A B : List Entry) (e : Entry)
    (hA : ∀ x ∈ A, distF64 lux luma x ≠ 0)
    (hB : ∀ x ∈ B, distF64 lux luma x ≠ 0)
    (h0 : distF64 lux luma e = 0) (hb : e.brightness < 2 ^ 64) :
    predictOut [] lux luma = none ∧
    (∀ (f : Entry) (lux2 : Nat) (luma2 : Option Nat),
      f.brightness < 2 ^ 64 → predictOut [f] lux2 luma2 = some f.brightness) ∧
    predictOut (A ++ e :: B) lux luma = some e.brightness := by
  refine ⟨rfl, ?_, ?_⟩
  · intro f lux2 luma2 hf
    unfold predictOut
    rw [if_neg (by simp), predictReal_single, realToU64_natCast _ hf]
  · unfold predictOut
    rw [if_neg (by simp), predictReal_exact_hit lux luma A B e hA hB h0,
      realToU64_natCast _ hb]

/-- Witness for `predict_edge_cases` at the spec's Scenario D: a single
entry `(5, 10, 15)` queried exactly at `(5, 10)` predicts 15. -/
theorem predict_edge_cases_witness :
    predictOut [] 5 (some 10) = none ∧
    (∀ (f : Entry) (lux2 : Nat) (luma2 : Option Nat),
      f.brightness < 2 ^ 64 → predictOut [f] lux2 luma2 = some f.brightness) ∧
    predictOut ([] ++ ⟨5, some 10, 15⟩ :: []) 5 (some 10) = some 15 :=
  predict_edge_cases 5 (some 10) [] [] ⟨5, some 10, 15⟩ (by simp) (by simp)
    (by simp [distF64]) (by norm_num)

/-- Counterexample to C4 as stated: with TWO identical entries at the
query point (both at Euclidean distance 0 — a data set reachable by
loading persisted data), every combination product carries a zero factor,
the Rust computation degenerates to `NaN` (here `0/0 = 0`) and the value
sent is 0, not the entries' brightness 15. -/
theorem predict_exact_hit_cex :
    distF64 5 (some 10) ⟨5, some 10, 15⟩ = 0 ∧
    predictOut [⟨5, some 10, 15⟩, ⟨5, some 10, 15⟩] 5 (some 10) = some 0 ∧
    some (0 : Nat) ≠ some 15 := by
  have hd : distF64 5 (some 10) ⟨5, some 10, 15⟩ = 0 := by
    simp [distF64]
  refine ⟨hd, ?_, by simp⟩
  unfold predictOut
  rw [if_neg (by simp)]
  have hpred :
      predictReal [⟨5, some 10, 15⟩, ⟨5, some 10, 15⟩] 5 (some 10) = 0 := by
    unfold predictReal
    rw [show ([⟨5, some 10, 15⟩, ⟨5, some 10, 15⟩] : List Entry).map
        (distF64 5 (some 10)) = [0, 0] from by simp [hd]]
    have hden : denomF64 [(0 : ℝ), 0] = 0 := by
      unfold denomF64
      simp [List.sublistsLen_succ_cons]
    rw [hden]
    simp
  rw [hpred]
  unfold realToU64
  simp

/-- C5: `predict` computes the inverse-distance-weighted mean in the
product-of-others formulation — the combinations denominator equals
`S = sum over k of (product of the distances other than k)`, and the value
sent is the truncation toward zero of `sum of brightness_i * P_i / S` — and
on the spec's concrete data sets it sends 30 for the exact-hit query and 44
for the three-point query. -/
theorem predict_idw_formula :
    (∀ ds : List ℝ, ds ≠ [] →
      denomF64 ds = ∑ k ∈ Finset.range ds.length, otherProd ds k) ∧
    predictOut [⟨5, some 10, 15⟩, ⟨10, some 20, 30⟩] 10 (some 20) =
      some 30 ∧
    predictOut [⟨5, some 10, 15⟩, ⟨10, some 20, 30⟩, ⟨100, some 100, 100⟩]
      50 (some 50) = some 44 := by
  refine ⟨denomF64_eq_sum, ?_, ?_⟩
  · show predictOut ([⟨5, some 10, 15⟩] ++ ⟨10, some 20, 30⟩ :: [])
      10 (some 20) = some 30
    unfold predictOut
    rw [if_neg (by simp)]
    rw [predictReal_exact_hit 10 (some 20) [⟨5, some 10, 15⟩] []
      ⟨10, some 20, 30⟩ ?_ (by simp) (by simp [distF64])]
    · exact congrArg some (realToU64_natCast 30 (by norm_num))
    · intro x hx
      rw [List.mem_singleton] at hx
      subst hx
      simp only [distF64]
      rw [Real.sqrt_ne_zero']
      norm_num
  · unfold predictOut
    rw [if_neg (by simp)]
    have h50 : Real.sqrt 2500 = 50 := by
      rw [show (2500 : ℝ) = 50 ^ 2 by norm_num, Real.sqrt_sq]
      norm_num
    have hds3 : ([⟨5, some 10, 15⟩, ⟨10, some 20, 30⟩,
        ⟨100, some 100, 100⟩] : List Entry).map (distF64 50 (some 50)) =
        [Real.sqrt 3625, 50, Real.sqrt 5000] := by
      simp only [List.map_cons, List.map_nil, distF64]
      norm_num [h50]
    have hs1sq : Real.sqrt 3625 ^ 2 = 3625 := Real.sq_sqrt (by norm_num)
    have hs3sq : Real.sqrt 5000 ^ 2 = 5000 := Real.sq_sqrt (by norm_num)
    have hs1pos : 0 < Real.sqrt 3625 := Real.sqrt_pos.2 (by norm_num)
    have hs3pos : 0 < Real.sqrt 5000 := Real.sqrt_pos.2 (by norm_num)
    have hb1 : (60.207 : ℝ) ≤ Real.sqrt 3625 := by nlinarith
    have hb2 : Real.sqrt 3625 ≤ 60.208 := by nlinarith
    have hb3 : (70.710 : ℝ) ≤ Real.sqrt 5000 := by nlinarith
    have hb4 : Real.sqrt 5000 ≤ 70.711 := by nlinarith
    have hprodlo : (60.207 : ℝ) * 70.710 ≤ Real.sqrt 3625 * Real.sqrt 5000 := by
      nlinarith
    have hprodhi : Real.sqrt 3625 * Real.sqrt 5000 ≤ 60.208 * 70.711 := by
      nlinarith
    have hS : (0 : ℝ) < 50 * Real.sqrt 5000 + Real.sqrt 3625 * Real.sqrt 5000
        + Real.sqrt 3625 * 50 := by nlinarith
    have hpred : predictReal [⟨5, some 10, 15⟩, ⟨10, some 20, 30⟩,
        ⟨100, some 100, 100⟩] 50 (some 50) =
        (15 * (50 * Real.sqrt 5000) + 30 * (Real.sqrt 3625 * Real.sqrt 5000)
          + 100 * (Real.sqrt 3625 * 50)) /
        (50 * Real.sqrt 5000 + Real.sqrt 3625 * Real.sqrt 5000
          + Real.sqrt 3625 * 50) := by
      unfold predictReal
      rw [hds3, denomF64_eq_sum _ (by simp)]
      simp [Finset.sum_range_succ, otherProd, List.getD]
      field_simp
    rw [hpred]
    have hlow : (44 : ℝ) ≤ (15 * (50 * Real.sqrt 5000)
        + 30 * (Real.sqrt 3625 * Real.sqrt 5000)
        + 100 * (Real.sqrt 3625 * 50)) /
        (50 * Real.sqrt 5000 + Real.sqrt 3625 * Real.sqrt 5000
          + Real.sqrt 3625 * 50) := by
      rw [le_div_iff hS]
      nlinarith
    have hhigh : (15 * (50 * Real.sqrt 5000)
        + 30 * (Real.sqrt 3625 * Real.sqrt 5000)
        + 100 * (Real.sqrt 3625 * 50)) /
        (50 * Real.sqrt 5000 + Real.sqrt 3625 * Real.sqrt 5000
          + Real.sqrt 3625 * 50) < 45 := by
      rw [div_lt_iff hS]
      nlinarith
    unfold realToU64
    have hfloor : ⌊(15 * (50 * Real.sqrt 5000)
        + 30 * (Real.sqrt 3625 * Real.sqrt 5000)
        + 100 * (Real.sqrt 3625 * 50)) /
        (50 * Real.sqrt 5000 + Real.sqrt 3625 * Real.sqrt 5000
          + Real.sqrt 3625 * 50)⌋₊ = 44 := by
      rw [Nat.floor_eq_iff (by positivity)]
      constructor
      · exact_mod_cast hlow
      · exact_mod_cast hhigh
    rw [hfloor]
    norm_num

/-- Witness for `predict_idw_formula`: the denominator refinement applied
to a concrete two-distance list. -/
theorem predict_idw_formula_witness :
    denomF64 [(2 : ℝ), 3] = ∑ k ∈ Finset.range 2, otherProd [(2 : ℝ), 3] k := by
  have h := predict_idw_formula.1 [(2 : ℝ), 3] (by simp)
  simpa using h
